import Mathlib

/-!
Verification of the tab-organizer matching and time-accounting core.

The definitions below are a shallow embedding of the JavaScript sources
`utils/storage.js` and `background.js`:

* `textMatchesPattern` builds a case-insensitive JS regex from a wildcard
  pattern (escaping `.`, `+`, `^`, `$`, `{`, `}`, `(`, `)`, `|`, `[`, `]`,
  `\` — but not `?` — then turning `*` into dot-star) and runs an
  unanchored `test`.  We model the produced regexes exactly: atoms are
  case-insensitive literals, possibly made optional by an unescaped `?`,
  and dot-stars; the dot does not cross line terminators; a `?` with
  nothing to quantify makes the RegExp constructor throw, modelled by
  `Option`.  Case folding is modelled with `Char.toLower`.
* `extractPrimaryName` applies nine end-anchored literal suffix regexes in
  order, each with `replace`, then trims.
* `matchTabToProject` is the three-pass resolver; a regex error inside a
  pass propagates, modelled with `Except`.
* `addTime`, `pruneOldData`, `flushActiveTime`, `startTrackingTab` embed
  the ledger and the time-accounting state machine; wall-clock reads
  (`Date.now()`, `todayKey()`, the prune cutoff) become explicit
  parameters, and JS objects become association lists in insertion order.
-/

namespace TabOrganizer

/-- Case folding used to model the JS case-insensitive flag (ASCII folding,
as `Char.toLower`). -/
def lowerc (c : Char) : Char := c.toLower

/-- Case-insensitive character comparison. -/
def charEq (c d : Char) : Bool := lowerc c == lowerc d

/-- Line terminators: the JS dot (hence the dot-star produced from a
wildcard) does not match these. -/
def isLineTerm (c : Char) : Bool :=
  c == '\n' || c == '\r' || c.toNat == 8232 || c.toNat == 8233

/-- Atom of a regex produced by `textMatchesPattern`: a literal character
(with an optional flag, set by an unescaped question mark) or the dot-star
produced from the wildcard `*`. -/
inductive RAtom where
  | lit (c : Char) (opt : Bool)
  | star
deriving DecidableEq

/-- Matching loop of a dot-star: keep the continuation `f` (the match of
the remaining atoms) and let the star swallow any run of non-terminator
characters. -/
def starScan (f : List Char → Bool) : List Char → Bool
  | [] => f []
  | d :: ds => f (d :: ds) || (!isLineTerm d && starScan f ds)

/-- Does the regex match some prefix of the character list (backtracking
language semantics; laziness of quantifiers is irrelevant to `test`). -/
def reMatchHere : List RAtom → List Char → Bool
  | [], _ => true
  | RAtom.lit c opt :: rest, s =>
    match s with
    | [] => opt && reMatchHere rest []
    | d :: ds =>
      (charEq c d && reMatchHere rest ds) || (opt && reMatchHere rest (d :: ds))
  | RAtom.star :: rest, s => starScan (reMatchHere rest) s

/-- Unanchored search, as `RegExp.prototype.test`: try a match at every
starting position. -/
def reSearch (atoms : List RAtom) : List Char → Bool
  | [] => reMatchHere atoms []
  | d :: ds => reMatchHere atoms (d :: ds) || reSearch atoms ds

/-- Compile a wildcard pattern to regex atoms, mirroring the two string
replacements of `textMatchesPattern`: characters of the escape class and
ordinary characters become literals, `*` becomes dot-star, and an
unescaped `?` quantifies the previous atom (optional, then lazy).  The
`Nat` argument counts how many further `?` the last atom still accepts;
`none` models the RegExp constructor throwing (nothing to repeat). -/
def compileAux : List Char → List RAtom → Nat → Option (List RAtom)
  | [], acc, _ => some acc.reverse
  | c :: cs, acc, q =>
    if c == '*' then compileAux cs (RAtom.star :: acc) 1
    else if c == '?' then
      match q, acc with
      | 0, _ => none
      | _ + 1, [] => none
      | q + 1, RAtom.lit ch _ :: rest => compileAux cs (RAtom.lit ch true :: rest) q
      | q + 1, RAtom.star :: rest => compileAux cs (RAtom.star :: rest) q
    else compileAux cs (RAtom.lit c false :: acc) 2

/-- Compilation entry point for a whole pattern string. -/
def compilePattern (pattern : String) : Option (List RAtom) :=
  compileAux pattern.toList [] 0

/-- Embedding of `textMatchesPattern(text, pattern)` from `utils/storage.js`:
escape all regex specials except `*` (and, inadvertently, `?`), turn `*`
into dot-star, run a case-insensitive unanchored `test`.  `none` models a
thrown regex-syntax error. -/
def textMatchesPattern (text pattern : String) : Option Bool :=
  (compilePattern pattern).map (fun r => reSearch r text.toList)

/-- Case-insensitive "is a prefix of" on character lists. -/
def isPrefCI : List Char → List Char → Bool
  | [], _ => true
  | _ :: _, [] => false
  | c :: cs, d :: ds => charEq c d && isPrefCI cs ds

/-- Case-insensitive "occurs as a contiguous substring" on character
lists (first argument is the sought word). -/
def containsCI (p : List Char) : List Char → Bool
  | [] => isPrefCI p []
  | d :: ds => isPrefCI p (d :: ds) || containsCI p ds

/-- Whitespace class of `String.prototype.trim`. -/
def isWS (c : Char) : Bool :=
  c == ' ' || c == '\t' || c == '\n' || c == '\r' ||
  c.toNat == 11 || c.toNat == 12 || c.toNat == 160 ||
  c.toNat == 65279 || c.toNat == 8232 || c.toNat == 8233

/-- Trim whitespace from both ends, as `String.prototype.trim`. -/
def trimL (s : List Char) : List Char :=
  ((s.dropWhile isWS).reverse.dropWhile isWS).reverse

/-- Case-insensitive "ends with". -/
def endsWithCI (s suf : List Char) : Bool := isPrefCI suf.reverse s.reverse

/-- Embedding of one `title.replace(/ - SuffixText$/i, "")` step: an
end-anchored literal regex matches iff the string ends with the literal
(case-insensitively), and replacing the match with the empty string drops
exactly that many trailing characters. -/
def stripSuffixCI (s suf : List Char) : List Char :=
  if endsWithCI s suf then s.take (s.length - suf.length) else s

/-- The fixed ordered suffix list of `extractPrimaryName` (hyphen, en-dash
and em-dash variants, in source order). -/
def titleSuffixes : List (List Char) :=
  [" - Google Drive".toList, " - Google Docs".toList, " - Google Sheets".toList,
   " - Google Slides".toList, " - Google Forms".toList,
   " – Google Drive".toList, " – Google Docs".toList,
   " — Google Drive".toList, " — Google Docs".toList]

/-- Embedding of `extractPrimaryName(title)` from `utils/storage.js`: empty
input returns empty; otherwise every suffix regex of the fixed list is
applied once, in order, to the running result, and the outcome is
trimmed. -/
def extractPrimaryName (title : String) : String :=
  if title == "" then ""
  else ⟨trimL (titleSuffixes.foldl (fun acc suf => stripSuffixCI acc suf) title.toList)⟩

/-- Modelled from the spec wording, for comparison with the code: strip at
most ONE trailing suffix per call, the first matching entry of the ordered
list winning, then trim; empty input returns empty. -/
def extractPrimaryNameOneStrip (title : String) : String :=
  if title == "" then ""
  else
    match titleSuffixes.find? (fun suf => endsWithCI title.toList suf) with
    | some suf => ⟨trimL (title.toList.take (title.toList.length - suf.length))⟩
    | none => ⟨trimL title.toList⟩

/-- A project rule: stable id, display name (also the ledger key), group
color, ordered wildcard patterns. -/
structure Project where
  id : String
  name : String
  color : String
  patterns : List String
deriving DecidableEq

/-- Inner loop of one resolver pass over one rule's pattern list.  The
guard is the extra truthiness condition of the pass (checked before the
regex is evaluated, so a false guard never raises); `Except.error` models
a thrown regex-syntax error propagating out of the scan. -/
def scanPats (guard : Bool) (text : String) : List String → Except Unit Bool
  | [] => Except.ok false
  | p :: rest =>
    if guard then
      match textMatchesPattern text p with
      | none => Except.error ()
      | some true => Except.ok true
      | some false => scanPats guard text rest
    else scanPats guard text rest

/-- One full pass of `matchTabToProject` over the rule list: rules with an
empty pattern list are skipped, the first rule with a matching pattern is
returned. -/
def scanProjects (guard : Bool) (text : String) : List Project → Except Unit (Option Project)
  | [] => Except.ok none
  | pr :: rest =>
    if pr.patterns.length > 0 then
      match scanPats guard text pr.patterns with
      | Except.error e => Except.error e
      | Except.ok true => Except.ok (some pr)
      | Except.ok false => scanProjects guard text rest
    else scanProjects guard text rest

/-- Embedding of `matchTabToProject(url, title, projects)` from
`utils/storage.js`: pass 1 over the primary name (guarded by its
truthiness), pass 2 over the raw title (guarded by truthiness and
difference from the primary name), pass 3 over the url, first hit wins. -/
def matchTabToProject (url title : String) (projects : List Project) :
    Except Unit (Option Project) :=
  match scanProjects (!(extractPrimaryName title == "")) (extractPrimaryName title) projects with
  | Except.error e => Except.error e
  | Except.ok (some pr) => Except.ok (some pr)
  | Except.ok none =>
    match scanProjects (!(title == "") && !(title == extractPrimaryName title)) title projects with
    | Except.error e => Except.error e
    | Except.ok (some pr) => Except.ok (some pr)
    | Except.ok none => scanProjects true url projects

/-- Does some pattern of the rule match the text (error-free reading). -/
def patternHit (text : String) (pr : Project) : Bool :=
  pr.patterns.any (fun p => (textMatchesPattern text p).getD false)

/-- Modelled from the spec wording of the resolver, for comparison with
the code: three passes over the whole rule list in order — primary name
when non-empty, raw title when non-empty and different, then url — first
match winning overall. -/
def resolveSpec (url title : String) (projects : List Project) : Option Project :=
  match (if extractPrimaryName title ≠ ""
      then projects.find? (patternHit (extractPrimaryName title)) else none) with
  | some r => some r
  | none =>
    match (if title ≠ "" ∧ title ≠ extractPrimaryName title
        then projects.find? (patternHit title) else none) with
    | some r => some r
    | none => projects.find? (patternHit url)

/-- Per-day map from project name to accumulated seconds, as a JS object
in insertion order. -/
abbrev DayMap : Type := List (String × ℚ)

/-- The time ledger `timeData`: day key to per-day map, insertion order. -/
abbrev Ledger : Type := List (String × DayMap)

/-- JS object property lookup on an association list. -/
def lookupA {α : Type} (k : String) : List (String × α) → Option α
  | [] => none
  | (k', v) :: rest => if k == k' then some v else lookupA k rest

/-- JS object property assignment: overwrite in place when the key exists,
append otherwise. -/
def setA {α : Type} (k : String) (v : α) : List (String × α) → List (String × α)
  | [] => [(k, v)]
  | (k', v') :: rest => if k == k' then (k, v) :: rest else (k', v') :: setA k v rest

/-- Embedding of `addTime(projectName, seconds)` from `utils/storage.js`;
the day key (`todayKey()` at call time) is an explicit parameter.  A
missing day gets a fresh object; the entry is read with a `|| 0` default
and incremented. -/
def addTime (day projectName : String) (seconds : ℚ) (td : Ledger) : Ledger :=
  let dayMap := (lookupA day td).getD []
  let cur := (lookupA projectName dayMap).getD 0
  setA day (setA projectName (cur + seconds) dayMap) td

/-- Accumulated seconds recorded for a name on a day (0 when absent). -/
def getLedger (td : Ledger) (day n : String) : ℚ :=
  ((lookupA day td).getD [] |> lookupA n).getD 0

/-- Lexicographic code-unit comparison on character lists, as the JS `<`
operator compares strings. -/
def charListLt : List Char → List Char → Bool
  | [], [] => false
  | [], _ :: _ => true
  | _ :: _, [] => false
  | c :: cs, d :: ds =>
    if c.toNat < d.toNat then true
    else if d.toNat < c.toNat then false
    else charListLt cs ds

/-- The JS string comparison `a < b`. -/
def strLtb (a b : String) : Bool := charListLt a.toList b.toList

/-- Embedding of `pruneOldData` from `utils/storage.js`: delete every day
key lexicographically below the cutoff string (the ISO date `keepDays`
days before now, computed from the wall clock and passed here as a
parameter). -/
def pruneOldData (cutoffStr : String) (td : Ledger) : Ledger :=
  td.filter (fun kv => !(strLtb kv.1 cutoffStr))

/-- Mutable state of the time-accounting state machine in
`background.js`. -/
structure TrackState where
  activeProjectName : Option String
  activeTabStartTime : Option ℚ
deriving DecidableEq

/-- JS truthiness of a possibly-null string. -/
def truthyS : Option String → Bool
  | none => false
  | some s => !(s == "")

/-- JS truthiness of a possibly-null number. -/
def truthyQ : Option ℚ → Bool
  | none => false
  | some x => !(x == 0)

/-- Embedding of `flushActiveTime()` from `background.js`: when both the
project name and the start time are truthy, add the elapsed seconds to
the ledger if they exceed 1; reset the start time to now in every case.
All `Date.now()` reads within one call share the `now` parameter, and the
addTime day key is the `day` parameter. -/
def flushActiveTime (now : ℚ) (day : String) (st : TrackState) (td : Ledger) :
    TrackState × Ledger :=
  let td' :=
    if truthyS st.activeProjectName && truthyQ st.activeTabStartTime then
      let elapsed := (now - st.activeTabStartTime.getD 0) / 1000
      if 1 < elapsed then addTime day (st.activeProjectName.getD "") elapsed td
      else td
    else td
  (⟨st.activeProjectName, some now⟩, td')

/-- A tab as read back from the host; `none` for the whole tab models
`chrome.tabs.get` throwing. -/
structure Tab where
  url : String
  title : String
deriving DecidableEq

/-- Embedding of `startTrackingTab(tabId)` from `background.js`.  External
reads are parameters: the paused flag, the idle flag, the clock, the day
key, the fetched tab (none = the host call threw) and the rule list.  When
paused or idle it returns at once; otherwise it flushes, resolves the new
project (no url, a `chrome://` url, a resolver error or no match give
"Uncategorized") and opens a fresh interval at now. -/
def startTrackingTab (paused isUserIdle : Bool) (now : ℚ) (day : String)
    (tabResult : Option Tab) (projects : List Project)
    (st : TrackState) (td : Ledger) : TrackState × Ledger :=
  if paused || isUserIdle then (st, td)
  else
    let flushed := flushActiveTime now day st td
    let name :=
      match tabResult with
      | none => "Uncategorized"
      | some tab =>
        if tab.url == "" || tab.url.startsWith "chrome://" then "Uncategorized"
        else
          match matchTabToProject tab.url tab.title projects with
          | Except.error _ => "Uncategorized"
          | Except.ok (some m) => m.name
          | Except.ok none => "Uncategorized"
    (⟨some name, some now⟩, flushed.2)

/-! Helper lemmas about the regex model on wildcard-free patterns. -/

theorem compileAux_lits (cs : List Char) (acc : List RAtom) (q : Nat)
    (h : ∀ c ∈ cs, c ≠ '*' ∧ c ≠ '?') :
    compileAux cs acc q = some (acc.reverse ++ cs.map (fun c => RAtom.lit c false)) := by
  induction cs generalizing acc q with
  | nil => simp [compileAux]
  | cons c cs ih =>
    obtain ⟨h1, h2⟩ := h c (List.mem_cons_self _ _)
    have hb1 : (c == '*') = false := by simp [h1]
    have hb2 : (c == '?') = false := by simp [h2]
    rw [compileAux.eq_def]
    simp only [hb1, hb2, Bool.false_eq_true, if_false]
    rw [ih _ _ (fun d hd => h d (List.mem_cons_of_mem _ hd))]
    simp

theorem reMatchHere_lits (p : List Char) (s : List Char) :
    reMatchHere (p.map (fun c => RAtom.lit c false)) s = isPrefCI p s := by
  induction p generalizing s with
  | nil => cases s <;> simp [reMatchHere, isPrefCI]
  | cons c cs ih =>
    cases s with
    | nil => simp [reMatchHere, isPrefCI]
    | cons d ds => simp [reMatchHere, isPrefCI, ih]

theorem reSearch_lits (p s : List Char) :
    reSearch (p.map (fun c => RAtom.lit c false)) s = containsCI p s := by
  induction s with
  | nil => simp [reSearch, containsCI, reMatchHere_lits]
  | cons d ds ih => simp [reSearch, containsCI, reMatchHere_lits, ih]

theorem charEq_iff (c d : Char) : charEq c d = true ↔ lowerc c = lowerc d := by
  simp [charEq]

theorem isPrefCI_iff (p s : List Char) :
    isPrefCI p s = true ↔
      ∃ mid post, s = mid ++ post ∧ mid.map lowerc = p.map lowerc := by
  induction p generalizing s with
  | nil =>
    constructor
    · intro _; exact ⟨[], s, rfl, by simp⟩
    · intro _; rfl
  | cons c cs ih =>
    cases s with
    | nil =>
      constructor
      · intro h; simp [isPrefCI] at h
      · rintro ⟨mid, post, heq, hmap⟩
        have hm : mid = [] := by
          cases mid with
          | nil => rfl
          | cons a l => simp at heq
        subst hm; simp at hmap
    | cons d ds =>
      simp only [isPrefCI, Bool.and_eq_true]
      constructor
      · rintro ⟨hc, hrest⟩
        obtain ⟨mid, post, hds, hmap⟩ := (ih ds).1 hrest
        refine ⟨d :: mid, post, by simp [hds], ?_⟩
        simp only [List.map_cons, hmap]
        rw [(charEq_iff c d).1 hc]
      · rintro ⟨mid, post, heq, hmap⟩
        cases mid with
        | nil => simp at hmap
        | cons m ms =>
          simp only [List.cons_append, List.cons.injEq] at heq
          simp only [List.map_cons, List.cons.injEq] at hmap
          constructor
          · rw [charEq_iff, heq.1, hmap.1]
          · exact (ih ds).2 ⟨ms, post, heq.2, hmap.2⟩

theorem containsCI_iff (p s : List Char) :
    containsCI p s = true ↔
      ∃ pre mid post, s = pre ++ mid ++ post ∧ mid.map lowerc = p.map lowerc := by
  induction s with
  | nil =>
    constructor
    · intro h
      obtain ⟨mid, post, heq, hmap⟩ := (isPrefCI_iff p []).1 h
      exact ⟨[], mid, post, by simp [heq], hmap⟩
    · rintro ⟨pre, mid, post, heq, hmap⟩
      have h0 : pre ++ (mid ++ post) = [] := by
        simpa [List.append_assoc] using heq.symm
      obtain ⟨rfl, h1⟩ := List.append_eq_nil.mp h0
      obtain ⟨rfl, rfl⟩ := List.append_eq_nil.mp h1
      exact (isPrefCI_iff p []).2 ⟨[], [], by simp, hmap⟩
  | cons d ds ih =>
    simp only [containsCI, Bool.or_eq_true]
    constructor
    · rintro (h | h)
      · obtain ⟨mid, post, heq, hmap⟩ := (isPrefCI_iff p (d :: ds)).1 h
        exact ⟨[], mid, post, by simp [heq], hmap⟩
      · obtain ⟨pre, mid, post, heq, hmap⟩ := ih.1 h
        exact ⟨d :: pre, mid, post, by simp [heq], hmap⟩
    · rintro ⟨pre, mid, post, heq, hmap⟩
      cases pre with
      | nil =>
        exact Or.inl ((isPrefCI_iff p (d :: ds)).2 ⟨mid, post, by simpa using heq, hmap⟩)
      | cons a l =>
        simp only [List.cons_append, List.cons.injEq] at heq
        exact Or.inr (ih.2 ⟨l, mid, post, heq.2, hmap⟩)

theorem literal_substring_iff (t p : String)
    (hstar : '*' ∉ p.toList) (hq : '?' ∉ p.toList) :
    textMatchesPattern t p = some true ↔
      ∃ pre mid post : List Char, t.toList = pre ++ mid ++ post ∧
        mid.map lowerc = p.toList.map lowerc := by
  have hc : ∀ c ∈ p.toList, c ≠ '*' ∧ c ≠ '?' :=
    fun c hcm => ⟨fun h => hstar (h ▸ hcm), fun h => hq (h ▸ hcm)⟩
  unfold textMatchesPattern compilePattern
  rw [compileAux_lits _ _ _ hc]
  simp only [List.reverse_nil, List.nil_append, Option.map_some', Option.some.injEq]
  rw [reSearch_lits]
  exact containsCI_iff p.toList t.toList

/-- C1 (amended): matching is an unanchored substring search, not an
anchored whole-string match — for every pattern p containing no `*` and no
`?` and every text t, compileAndTest(t, p) returns true iff p occurs
case-insensitively as a contiguous substring of t. -/
theorem pattern_literal_substring (t p : String)
    (hstar : '*' ∉ p.toList) (hq : '?' ∉ p.toList) :
    textMatchesPattern t p = some true ↔
      ∃ pre mid post : List Char, t.toList = pre ++ mid ++ post ∧
        mid.map lowerc = p.toList.map lowerc :=
  literal_substring_iff t p hstar hq

theorem pattern_literal_substring_wit :
    ('*' ∉ "ELL".toList) ∧ ('?' ∉ "ELL".toList) ∧
    (textMatchesPattern "Hello" "ELL" = some true ↔
      ∃ pre mid post : List Char, "Hello".toList = pre ++ mid ++ post ∧
        mid.map lowerc = "ELL".toList.map lowerc) :=
  ⟨by decide, by decide, pattern_literal_substring "Hello" "ELL" (by decide) (by decide)⟩

/-- C1 counterexample: the pattern "b" contains no `*`, the text "ab" is
not case-insensitively equal to "b", yet the match succeeds — the
compiled regex is not anchored at either end. -/
theorem pattern_anchoring_cx :
    ('*' ∉ "b".toList) ∧ textMatchesPattern "ab" "b" = some true ∧
      "ab".toList.map lowerc ≠ "b".toList.map lowerc := by decide

/-- C2 (amended): the matcher escapes every regex-special character except
`*` and `?`; `?` stays a quantifier.  For patterns free of `*` and `?`, a
successful match forces every pattern character (such as an escaped `.`
or `+`) to occur case-insensitively in the text. -/
theorem pattern_escape_chars (t p : String) (c : Char)
    (hstar : '*' ∉ p.toList) (hq : '?' ∉ p.toList) (hc : c ∈ p.toList)
    (hm : textMatchesPattern t p = some true) :
    ∃ d ∈ t.toList, charEq c d = true := by
  obtain ⟨pre, mid, post, heq, hmap⟩ := (literal_substring_iff t p hstar hq).1 hm
  have hcl : lowerc c ∈ p.toList.map lowerc := List.mem_map_of_mem _ hc
  rw [← hmap] at hcl
  obtain ⟨d, hd, hdl⟩ := List.mem_map.1 hcl
  refine ⟨d, ?_, (charEq_iff c d).2 hdl.symm⟩
  rw [heq]
  simp [hd]

theorem pattern_escape_chars_wit :
    ('*' ∉ ".".toList) ∧ ('?' ∉ ".".toList) ∧ '.' ∈ ".".toList ∧
    textMatchesPattern "x.y" "." = some true ∧
    (∃ d ∈ "x.y".toList, charEq '.' d = true) :=
  ⟨by decide, by decide, by decide, by decide,
   pattern_escape_chars "x.y" "." '.' (by decide) (by decide) (by decide) (by decide)⟩

/-- C2 counterexample: the pattern "b?" contains a regex metacharacter and
no `*`, yet it matches the text "a", which contains neither `?` nor `b`
literally — `?` is left unescaped and acts as an optional quantifier. -/
theorem pattern_question_cx :
    ('*' ∉ "b?".toList) ∧ textMatchesPattern "a" "b?" = some true ∧
      ('?' ∉ "a".toList) ∧ ('b' ∉ "a".toList) := by decide

/-- C3 (amended): the empty pattern compiles to the empty regex, which
matches every text, not only the empty one; and not every pattern input is
error-free — a pattern consisting of `?` makes the RegExp constructor
throw (nothing to repeat). -/
theorem pattern_empty_and_error (t : String) :
    textMatchesPattern t "" = some true ∧ textMatchesPattern t "?" = none := by
  constructor
  · have hall : ∀ l : List Char, reSearch [] l = true := by
      intro l
      induction l with
      | nil => rfl
      | cons d ds ih => simp [reSearch, reMatchHere, ih]
    simp [textMatchesPattern, compilePattern, compileAux, hall]
  · rfl

/-- C3 counterexample: the non-empty text "x" is matched by the empty
pattern, and the pattern "?" raises instead of returning a boolean. -/
theorem pattern_empty_cx :
    textMatchesPattern "x" "" = some true ∧ ("x" : String) ≠ "" ∧
      textMatchesPattern "x" "?" = none := by decide

theorem foldl_strip_nomatch (s : List Char) (sufs : List (List Char))
    (h : ∀ suf ∈ sufs, endsWithCI s suf = false) :
    sufs.foldl (fun acc suf => stripSuffixCI acc suf) s = s := by
  induction sufs with
  | nil => rfl
  | cons suf rest ih =>
    have h1 := h suf (List.mem_cons_self _ _)
    have hstep : stripSuffixCI s suf = s := by simp [stripSuffixCI, h1]
    simp only [List.foldl_cons, hstep]
    exact ih (fun u hu => h u (List.mem_cons_of_mem _ hu))

/-- C4 (amended): extractPrimaryName applies each entry of the fixed
ordered suffix list at most once, in list order, each to the result of the
previous strip — so several distinct suffixes can be stripped in one call,
though the same entry is never reapplied; the result is
whitespace-trimmed, a title ending in no suffix is merely trimmed, and
empty input yields the empty string. -/
theorem extractPrimaryName_props (title : String)
    (h : ∀ suf ∈ titleSuffixes, endsWithCI title.toList suf = false) :
    extractPrimaryName title = ⟨trimL title.toList⟩ ∧
    extractPrimaryName "" = "" ∧
    extractPrimaryName "B - Google Drive - Google Drive" = "B - Google Drive" ∧
    extractPrimaryName "A  - Google Docs" = "A" := by
  refine ⟨?_, by decide, by decide, by decide⟩
  by_cases ht : title = ""
  · subst ht; decide
  · have htb : (title == "") = false := by simp [ht]
    simp only [extractPrimaryName, htb, Bool.false_eq_true, if_false]
    exact congrArg (fun l => String.mk (trimL l))
      (foldl_strip_nomatch title.toList titleSuffixes h)

theorem extractPrimaryName_props_wit :
    (∀ suf ∈ titleSuffixes, endsWithCI "my page - example".toList suf = false) ∧
    (extractPrimaryName "my page - example" = ⟨trimL "my page - example".toList⟩ ∧
     extractPrimaryName "" = "" ∧
     extractPrimaryName "B - Google Drive - Google Drive" = "B - Google Drive" ∧
     extractPrimaryName "A  - Google Docs" = "A") :=
  ⟨by decide, extractPrimaryName_props "my page - example" (by decide)⟩

/-- C4 counterexample: on the title "A - Google Docs - Google Drive" the
code strips TWO suffixes (first the Drive entry, then the Docs entry on
the already-stripped result), returning "A", where the claimed
one-strip/first-match-wins semantics (extractPrimaryNameOneStrip, modelled
from the spec) returns "A - Google Docs". -/
theorem extractPrimaryName_multistrip_cx :
    extractPrimaryName "A - Google Docs - Google Drive" = "A" ∧
    extractPrimaryNameOneStrip "A - Google Docs - Google Drive" = "A - Google Docs" ∧
    ("A" : String) ≠ "A - Google Docs" := by decide

theorem tmp_isSome (text p : String) :
    (textMatchesPattern text p).isSome = (compilePattern p).isSome := by
  unfold textMatchesPattern
  cases compilePattern p <;> simp

theorem scanPats_false (text : String) (ps : List String) :
    scanPats false text ps = Except.ok false := by
  induction ps with
  | nil => rfl
  | cons p rest ih => simp [scanPats, ih]

theorem scanPats_true (text : String) (ps : List String)
    (h : ∀ p ∈ ps, (compilePattern p).isSome) :
    scanPats true text ps =
      Except.ok (ps.any fun p => (textMatchesPattern text p).getD false) := by
  induction ps with
  | nil => rfl
  | cons p rest ih =>
    have hp : (textMatchesPattern text p).isSome := by
      rw [tmp_isSome]; exact h p (List.mem_cons_self _ _)
    obtain ⟨b, hb⟩ := Option.isSome_iff_exists.1 hp
    cases b with
    | true => simp [scanPats, hb]
    | false =>
      simp [scanPats, hb, ih (fun q hq => h q (List.mem_cons_of_mem _ hq))]

theorem scanProjects_eq (g : Bool) (text : String) (projects : List Project)
    (h : ∀ pr ∈ projects, ∀ p ∈ pr.patterns, (compilePattern p).isSome) :
    scanProjects g text projects =
      Except.ok (if g then projects.find? (patternHit text) else none) := by
  cases g with
  | false =>
    simp only [Bool.false_eq_true, if_false]
    induction projects with
    | nil => rfl
    | cons pr rest ih =>
      have ih' := ih (fun q hq ps hps => h q (List.mem_cons_of_mem _ hq) ps hps)
      by_cases hl : pr.patterns.length > 0 <;>
        simp [scanProjects, hl, scanPats_false, ih']
  | true =>
    simp only [if_true]
    induction projects with
    | nil => rfl
    | cons pr rest ih =>
      have ih' := ih (fun q hq ps hps => h q (List.mem_cons_of_mem _ hq) ps hps)
      have hsp := scanPats_true text pr.patterns (h pr (List.mem_cons_self _ _))
      by_cases hl : pr.patterns.length > 0
      · cases hhit : pr.patterns.any fun p => (textMatchesPattern text p).getD false with
        | true =>
          rw [hhit] at hsp
          simp [scanProjects, hl, hsp, List.find?, patternHit, hhit]
        | false =>
          rw [hhit] at hsp
          simp [scanProjects, hl, hsp, List.find?, patternHit, hhit, ih']
      · have hnil : pr.patterns = [] := by
          cases hpp : pr.patterns with
          | nil => rfl
          | cons a l => rw [hpp] at hl; simp at hl
        have hph : patternHit text pr = false := by simp [patternHit, hnil]
        simp [scanProjects, hl, List.find?, hph, ih']

/-- C5: the resolver performs three full passes over the whole rule list
in order — non-empty primary name, then non-empty differing raw title,
then url — with the first match winning overall (so a primary-name hit
beats an earlier-positioned url hit), rules with an empty pattern list
never matching, and none returned when no pass hits (stated as equality
with the spec-modelled resolveSpec, for rule lists whose patterns all
compile). -/
theorem matchTabToProject_threePass (url title : String) (projects : List Project)
    (h : ∀ pr ∈ projects, ∀ p ∈ pr.patterns, (compilePattern p).isSome) :
    matchTabToProject url title projects = Except.ok (resolveSpec url title projects) := by
  have key : ∀ (X Y Z : Option Project),
      (match Except.ok X with
       | Except.error e => (Except.error e : Except Unit (Option Project))
       | Except.ok (some pr) => Except.ok (some pr)
       | Except.ok none =>
         match Except.ok Y with
         | Except.error e => Except.error e
         | Except.ok (some pr) => Except.ok (some pr)
         | Except.ok none => Except.ok Z) =
      Except.ok (match X with
        | some r => some r
        | none => match Y with
          | some r => some r
          | none => Z) := by
    intro X Y Z
    cases X <;> cases Y <;> rfl
  have g1 : (if (!(extractPrimaryName title == "")) = true
        then projects.find? (patternHit (extractPrimaryName title)) else none) =
      (if extractPrimaryName title ≠ ""
        then projects.find? (patternHit (extractPrimaryName title)) else none) := by
    by_cases h1 : extractPrimaryName title = "" <;> simp [h1]
  have g2 : (if ((!(title == "")) && (!(title == extractPrimaryName title))) = true
        then projects.find? (patternHit title) else none) =
      (if title ≠ "" ∧ title ≠ extractPrimaryName title
        then projects.find? (patternHit title) else none) := by
    by_cases h2 : title = ""
    · simp [h2]
    · by_cases h3 : title = extractPrimaryName title
      · have hb : (title == extractPrimaryName title) = true := beq_iff_eq.mpr h3
        rw [hb]
        simp only [Bool.not_true, Bool.and_false, Bool.false_eq_true, if_false]
        rw [if_neg (fun hcon => hcon.2 h3)]
      · simp [h2, h3]
  unfold matchTabToProject resolveSpec
  rw [scanProjects_eq _ _ _ h, scanProjects_eq _ _ _ h, scanProjects_eq _ _ _ h]
  simp only [if_true]
  rw [g1, g2]
  exact key _ _ _

theorem matchTabToProject_threePass_wit :
    (∀ pr ∈ [Project.mk "1" "UrlRule" "grey" ["github.com*"],
             Project.mk "2" "NameRule" "blue" ["*report*"]],
       ∀ p ∈ pr.patterns, (compilePattern p).isSome) ∧
    matchTabToProject "github.com/x" "Report - Google Docs"
        [Project.mk "1" "UrlRule" "grey" ["github.com*"],
         Project.mk "2" "NameRule" "blue" ["*report*"]] =
      Except.ok (resolveSpec "github.com/x" "Report - Google Docs"
        [Project.mk "1" "UrlRule" "grey" ["github.com*"],
         Project.mk "2" "NameRule" "blue" ["*report*"]]) :=
  ⟨by decide, matchTabToProject_threePass "github.com/x" "Report - Google Docs" _ (by decide)⟩

/-! Helper lemmas about the association-list ledger. -/

theorem lookupA_setA_self {α : Type} (k : String) (v : α) (l : List (String × α)) :
    lookupA k (setA k v l) = some v := by
  induction l with
  | nil => simp [setA, lookupA]
  | cons kv rest ih =>
    obtain ⟨k', v'⟩ := kv
    by_cases hk : k = k'
    · simp [setA, lookupA, hk]
    · have hb : (k == k') = false := by simp [hk]
      simp [setA, lookupA, hb, ih]

theorem lookupA_setA_ne {α : Type} (k k' : String) (v : α) (l : List (String × α))
    (h : k' ≠ k) :
    lookupA k' (setA k v l) = lookupA k' l := by
  induction l with
  | nil => simp [setA, lookupA, h]
  | cons kv rest ih =>
    obtain ⟨k0, v0⟩ := kv
    by_cases hk : k = k0
    · subst hk
      have hb : (k' == k) = false := by simp [h]
      simp [setA, lookupA, hb]
    · have hb : (k == k0) = false := by simp [hk]
      simp [setA, lookupA, hb, ih]

theorem getLedger_addTime_self (td : Ledger) (d n : String) (s : ℚ) :
    getLedger (addTime d n s td) d n = getLedger td d n + s := by
  unfold getLedger addTime
  rw [lookupA_setA_self]
  simp [lookupA_setA_self]

theorem getLedger_addTime_ne_day (td : Ledger) (d n d' n' : String) (s : ℚ)
    (h : d' ≠ d) :
    getLedger (addTime d n s td) d' n' = getLedger td d' n' := by
  unfold getLedger addTime
  rw [lookupA_setA_ne _ _ _ _ h]

theorem getLedger_addTime_ne_name (td : Ledger) (d n n' : String) (s : ℚ)
    (h : n' ≠ n) :
    getLedger (addTime d n s td) d n' = getLedger td d n' := by
  unfold getLedger addTime
  rw [lookupA_setA_self]
  simp [lookupA_setA_ne _ _ _ _ h]

/-- C10: addTime changes only the entry for the given day and name,
increasing it by exactly s (a missing entry counts as 0, so it is created
at s); every other day's lookup and every other name's value is unchanged,
and with s ≥ 0 no entry decreases. -/
theorem addTime_frame (td : Ledger) (day n : String) (s : ℚ) (hs : 0 ≤ s) :
    getLedger (addTime day n s td) day n = getLedger td day n + s ∧
    (∀ d', d' ≠ day → lookupA d' (addTime day n s td) = lookupA d' td) ∧
    (∀ n', n' ≠ n → getLedger (addTime day n s td) day n' = getLedger td day n') ∧
    (∀ d' n', getLedger td d' n' ≤ getLedger (addTime day n s td) d' n') := by
  refine ⟨getLedger_addTime_self td day n s,
    fun d' hd => ?_,
    fun n' hn => getLedger_addTime_ne_name td day n n' s hn,
    fun d' n' => ?_⟩
  · unfold addTime
    exact lookupA_setA_ne _ _ _ _ hd
  · by_cases hd : d' = day
    · subst hd
      by_cases hn : n' = n
      · subst hn
        rw [getLedger_addTime_self]
        linarith
      · rw [getLedger_addTime_ne_name td d' n n' s hn]
    · rw [getLedger_addTime_ne_day td day n d' n' s hd]

theorem addTime_frame_wit :
    (0 : ℚ) ≤ 5 ∧
    (getLedger (addTime "2025-07-13" "A" 5 []) "2025-07-13" "A"
        = getLedger ([] : Ledger) "2025-07-13" "A" + 5 ∧
     (∀ d', d' ≠ "2025-07-13" →
        lookupA d' (addTime "2025-07-13" "A" 5 []) = lookupA d' ([] : Ledger)) ∧
     (∀ n', n' ≠ "A" →
        getLedger (addTime "2025-07-13" "A" 5 []) "2025-07-13" n'
          = getLedger ([] : Ledger) "2025-07-13" n') ∧
     (∀ d' n', getLedger ([] : Ledger) d' n'
        ≤ getLedger (addTime "2025-07-13" "A" 5 []) d' n')) :=
  ⟨by norm_num, addTime_frame [] "2025-07-13" "A" 5 (by norm_num)⟩

/-- C9: pruning with cutoff string cutoff (the ISO date of the retention
horizon) deletes exactly the day keys lexicographically — i.e., for ISO
day keys, chronologically — below the cutoff: a key at the cutoff is kept
with its data unchanged, a key below it (e.g. one day older) is removed,
as the concrete boundary instance shows. -/
theorem pruneOldData_boundary (cutoff k : String) (td : Ledger) (m m' : DayMap) :
    lookupA k (pruneOldData cutoff td) =
      (if strLtb k cutoff then none else lookupA k td) ∧
    pruneOldData "2025-07-13" [("2025-07-12", m), ("2025-07-13", m')] = [("2025-07-13", m')] := by
  constructor
  · induction td with
    | nil => cases hb : strLtb k cutoff <;> simp [pruneOldData, lookupA, hb]
    | cons kv rest ih =>
      obtain ⟨k', v⟩ := kv
      by_cases hkk : k = k'
      · subst hkk
        cases hb : strLtb k cutoff with
        | true =>
          rw [hb] at ih
          simp only [if_true, pruneOldData] at ih
          simp [pruneOldData, List.filter_cons, hb, ih]
        | false =>
          simp [pruneOldData, List.filter_cons, hb, lookupA]
      · have hbk : (k == k') = false := by simp [hkk]
        cases hb' : strLtb k' cutoff with
        | true =>
          simp only [pruneOldData, List.filter_cons, hb', Bool.not_true,
            Bool.false_eq_true, if_false] at ih ⊢
          rw [ih]
          cases hb : strLtb k cutoff <;> simp [hb, lookupA, hbk]
        | false =>
          simp only [pruneOldData, List.filter_cons, hb', Bool.not_false, if_true] at ih ⊢
          simp only [lookupA, hbk, Bool.false_eq_true, if_false]
          rw [ih]
  · have h1 : strLtb "2025-07-12" "2025-07-13" = true := by decide
    have h2 : strLtb "2025-07-13" "2025-07-13" = false := by decide
    simp [pruneOldData, List.filter_cons, h1, h2]

/-- C6: flush is a checkpoint, not a terminator — with an open interval it
adds the elapsed seconds to the day's entry for the tracked project only
when they exceed 1 (an interval of at most 1 second, e.g. 0.5s, contributes
nothing), and resets startTime to now either way, so two successive
flushes accumulate exactly the total elapsed time (t2 - t0)/1000, not the
sum of overlapping intervals. -/
theorem flush_checkpoint (p : String) (t0 t1 t2 : ℚ) (d : String) (td : Ledger)
    (hp : p ≠ "") (h0 : 0 < t0)
    (h1 : 1 < (t1 - t0) / 1000) (h2 : 1 < (t2 - t1) / 1000) :
    (flushActiveTime t2 d (flushActiveTime t1 d ⟨some p, some t0⟩ td).1
        (flushActiveTime t1 d ⟨some p, some t0⟩ td).2).1 = ⟨some p, some t2⟩ ∧
    getLedger (flushActiveTime t2 d (flushActiveTime t1 d ⟨some p, some t0⟩ td).1
        (flushActiveTime t1 d ⟨some p, some t0⟩ td).2).2 d p
      = getLedger td d p + (t2 - t0) / 1000 ∧
    (∀ t', (t' - t0) / 1000 ≤ 1 →
      (flushActiveTime t' d ⟨some p, some t0⟩ td).2 = td) := by
  have e0 : t0 ≠ 0 := ne_of_gt h0
  have h1' : 1000 < t1 - t0 := by
    rw [lt_div_iff₀ (by norm_num : (0:ℚ) < 1000)] at h1
    linarith
  have e1 : t1 ≠ 0 := by
    have : 0 < t1 := by linarith
    exact ne_of_gt this
  have hpb : (p == "") = false := by simp [hp]
  have ht0b : (t0 == 0) = false := by simp [e0]
  have ht1b : (t1 == 0) = false := by simp [e1]
  have hf1 : flushActiveTime t1 d ⟨some p, some t0⟩ td
      = (⟨some p, some t1⟩, addTime d p ((t1 - t0) / 1000) td) := by
    simp [flushActiveTime, truthyS, truthyQ, hpb, ht0b, h1]
  have hf2 : flushActiveTime t2 d ⟨some p, some t1⟩ (addTime d p ((t1 - t0) / 1000) td)
      = (⟨some p, some t2⟩,
         addTime d p ((t2 - t1) / 1000) (addTime d p ((t1 - t0) / 1000) td)) := by
    simp [flushActiveTime, truthyS, truthyQ, hpb, ht1b, h2]
  refine ⟨by rw [hf1, hf2], ?_, ?_⟩
  · rw [hf1, hf2]
    simp only [getLedger_addTime_self]
    ring
  · intro t' ht'
    have hnot : ¬ (1 < (t' - t0) / 1000) := not_lt.mpr ht'
    simp [flushActiveTime, truthyS, truthyQ, hpb, ht0b, hnot]

theorem flush_checkpoint_wit :
    ("A" ≠ "") ∧ ((0:ℚ) < 10000) ∧ (1 < ((40000:ℚ) - 10000) / 1000) ∧
    (1 < ((55000:ℚ) - 40000) / 1000) ∧
    ((flushActiveTime 55000 "2025-07-13"
        (flushActiveTime 40000 "2025-07-13" ⟨some "A", some 10000⟩ []).1
        (flushActiveTime 40000 "2025-07-13" ⟨some "A", some 10000⟩ []).2).1
      = ⟨some "A", some 55000⟩ ∧
     getLedger (flushActiveTime 55000 "2025-07-13"
        (flushActiveTime 40000 "2025-07-13" ⟨some "A", some 10000⟩ []).1
        (flushActiveTime 40000 "2025-07-13" ⟨some "A", some 10000⟩ []).2).2
        "2025-07-13" "A"
      = getLedger ([] : Ledger) "2025-07-13" "A" + ((55000:ℚ) - 10000) / 1000 ∧
     (∀ t', (t' - (10000:ℚ)) / 1000 ≤ 1 →
       (flushActiveTime t' "2025-07-13" ⟨some "A", some 10000⟩ ([] : Ledger)).2 = [])) :=
  ⟨by decide, by norm_num, by norm_num, by norm_num,
   flush_checkpoint "A" 10000 40000 55000 "2025-07-13" []
     (by decide) (by norm_num) (by norm_num) (by norm_num)⟩

/-- C7 (amended): a flush with no tracked project never touches the ledger
and never changes the project name — two such flushes change the ledger by
zero — but it is not a complete no-op: the start timestamp is reset to the
flush time on every call, open interval or not. -/
theorem flush_no_interval (t1 t2 : ℚ) (d1 d2 : String) (st : TrackState) (td : Ledger)
    (h : truthyS st.activeProjectName = false) :
    (flushActiveTime t2 d2 (flushActiveTime t1 d1 st td).1
        (flushActiveTime t1 d1 st td).2).2 = td ∧
    (flushActiveTime t1 d1 st td).1.activeProjectName = st.activeProjectName ∧
    (flushActiveTime t2 d2 (flushActiveTime t1 d1 st td).1
        (flushActiveTime t1 d1 st td).2).1
      = ⟨st.activeProjectName, some t2⟩ := by
  simp [flushActiveTime, h]

theorem flush_no_interval_wit :
    truthyS (none : Option String) = false ∧
    ((flushActiveTime 7000 "2025-07-14"
        (flushActiveTime 5000 "2025-07-13" ⟨none, none⟩ []).1
        (flushActiveTime 5000 "2025-07-13" ⟨none, none⟩ []).2).2 = ([] : Ledger) ∧
     (flushActiveTime 5000 "2025-07-13" ⟨none, none⟩ ([] : Ledger)).1.activeProjectName
        = (none : Option String) ∧
     (flushActiveTime 7000 "2025-07-14"
        (flushActiveTime 5000 "2025-07-13" ⟨none, none⟩ []).1
        (flushActiveTime 5000 "2025-07-13" ⟨none, none⟩ []).2).1
        = ⟨none, some 7000⟩) :=
  ⟨by decide, flush_no_interval 5000 7000 "2025-07-13" "2025-07-14" ⟨none, none⟩ [] (by decide)⟩

/-- C7 counterexample: flushing with nothing tracked leaves the ledger
alone but SETS the start timestamp to now — the state is changed, so the
call is not the claimed complete no-op. -/
theorem flush_no_interval_cx :
    (flushActiveTime 5000 "2025-07-13" ⟨none, none⟩ []).2 = ([] : Ledger) ∧
    (flushActiveTime 5000 "2025-07-13" ⟨none, none⟩ []).1 = ⟨none, some 5000⟩ ∧
    (⟨none, some 5000⟩ : TrackState) ≠ ⟨none, none⟩ := by decide

/-- C8 (amended): when the paused flag is set or the user is idle,
beginTracking returns immediately — no flush happens and the ledger is
untouched — but the tracking state is left exactly as it was, so an
already-open interval stays open; the machine does NOT transition to
Idle-no-project. -/
theorem startTracking_paused (paused idle : Bool) (now : ℚ) (day : String)
    (tabResult : Option Tab) (projects : List Project) (st : TrackState) (td : Ledger)
    (h : (paused || idle) = true) :
    startTrackingTab paused idle now day tabResult projects st td = (st, td) := by
  simp [startTrackingTab, h]

theorem startTracking_paused_wit :
    ((true || false) = true) ∧
    startTrackingTab true false 5000 "2025-07-13" none [] ⟨some "A", some 1000⟩ []
      = (⟨some "A", some 1000⟩, ([] : Ledger)) :=
  ⟨by decide, startTracking_paused true false 5000 "2025-07-13" none []
    ⟨some "A", some 1000⟩ [] (by decide)⟩

/-- C8 counterexample: a paused beginTracking call made while the machine
is Tracking("A", 1000) leaves the machine still Tracking("A", 1000) — an
open interval remains, contradicting the claimed transition to
Idle-no-project. -/
theorem startTracking_paused_cx :
    startTrackingTab true false 5000 "2025-07-13" none [] ⟨some "A", some 1000⟩ []
      = (⟨some "A", some 1000⟩, ([] : Ledger)) ∧
    (⟨some "A", some 1000⟩ : TrackState).activeProjectName ≠ none := by decide

end TabOrganizer
